import Mathlib

/-!
Verification of the aggregation core of `generate.py` (music-league-stats).

The Python source is shallowly embedded: CSV rows become structures, the
`dict` / `defaultdict` accumulators become insertion-ordered association
lists, Python's stable `sort`/`sorted` becomes `List.mergeSort`, and the
float averages become exact rationals.  File reading is out of scope (the
spec treats the CSV loaders as external collaborators), so every embedded
function takes the already-loaded records as a list.
-/

namespace MusicLeagueStats

/-! ## Records loaded from the CSV sources -/

/-- A row of the votes source: voter id, track uri, round id and the integer
points assigned (may be negative or zero). -/
structure Vote where
  voterId : String
  spotifyUri : String
  roundId : String
  pointsAssigned : Int
  deriving DecidableEq, Repr

/-- A row of the submissions source. -/
structure Submission where
  roundId : String
  spotifyUri : String
  title : String
  artist : String
  submitterId : String
  deriving DecidableEq, Repr

/-- A row of the rounds source. -/
structure RoundRec where
  id : String
  name : String
  created : String
  deriving DecidableEq, Repr

/-- The mutable accumulator of `load_voter_stats` (dataclass `VoterStats`). -/
structure VoterStats where
  voter_id : String
  name : String
  total_points : Int
  num_votes : Nat
  num_positive_votes : Nat
  deriving DecidableEq, Repr

/-! ## Python dictionaries as insertion-ordered association lists

A `dict` keeps insertion order of keys; assignment to a present key keeps
the key's position.  `lookup?` is `d.get(k)`, `updD` is the
read-modify-write `d[k] = f(d.get(k, dflt))` pattern used both by the
explicit "insert a zero accumulator if absent" code and by `defaultdict`.
-/

/-- Lookup in an association list (Python `d.get(k)`); built dictionaries
have pairwise distinct keys, so taking the first match is `dict` lookup. -/
def lookup? {α β : Type} [DecidableEq α] : List (α × β) → α → Option β
  | [], _ => none
  | e :: m, k => if e.1 = k then some e.2 else lookup? m k

/-- Dictionary store `d[k] = f(d.get(k, dflt))`: update the entry in place
if the key is present, else append a fresh entry. -/
def updD {α β : Type} [DecidableEq α] (m : List (α × β)) (k : α) (dflt : β)
    (f : β → β) : List (α × β) :=
  if (lookup? m k).isSome then
    m.map (fun e => if e.1 = k then (k, f ((lookup? m k).getD dflt)) else e)
  else m ++ [(k, f dflt)]

/-- Plain dictionary assignment `d[k] = v`. -/
def insertD {α β : Type} [DecidableEq α] (m : List (α × β)) (k : α) (v : β) :
    List (α × β) :=
  if (lookup? m k).isSome then m.map (fun e => if e.1 = k then (k, v) else e)
  else m ++ [(k, v)]

/-- Record a key, keeping only its first appearance (dict key order). -/
def insKey {α : Type} [DecidableEq α] (ks : List α) (k : α) : List α :=
  if k ∈ ks then ks else ks ++ [k]

/-- The distinct elements of a list in order of first appearance: the key
order of a dictionary filled by one pass over the list. -/
def firstSeen {α : Type} [DecidableEq α] (l : List α) : List α :=
  l.foldl insKey []

/-- Fold the per-key updates of the records whose key is `k` over an
initial accumulator, in record order. -/
def foldKey {σ α β : Type} [DecidableEq α] (key : σ → α) (f : σ → β → β)
    (k : α) (b : β) (xs : List σ) : β :=
  xs.foldl (fun acc x => if key x = k then f x acc else acc) b

/-- One pass filling a dictionary from records: the shape of every
accumulator loop in `generate.py`. -/
def foldUpd {σ α β : Type} [DecidableEq α] (key : σ → α) (d : α → β)
    (f : σ → β → β) (xs : List σ) : List (α × β) :=
  xs.foldl (fun m x => updD m (key x) (d (key x)) (f x)) []

section DictLemmas

variable {σ α β : Type} [DecidableEq α]

theorem lookup?_map_graph (ks : List α) (g : α → β) (k : α) :
    lookup? (ks.map (fun k' => (k', g k'))) k =
      if k ∈ ks then some (g k) else none := by
  induction ks with
  | nil => simp [lookup?]
  | cons a ks ih =>
    simp only [List.map_cons, lookup?, List.mem_cons]
    by_cases h : a = k
    · subst h; simp
    · simp [h, ih, Ne.symm h]

theorem mem_insKey (ks : List α) (a k : α) :
    a ∈ insKey ks k ↔ a ∈ ks ∨ a = k := by
  unfold insKey
  split
  · rename_i h
    constructor
    · exact Or.inl
    · rintro (h' | rfl)
      · exact h'
      · exact h
  · simp

theorem nodup_insKey (ks : List α) (k : α) (h : ks.Nodup) :
    (insKey ks k).Nodup := by
  unfold insKey
  split
  · exact h
  · rename_i hk
    rw [List.nodup_append]
    refine ⟨h, List.nodup_singleton k, ?_⟩
    intro b hb hbk
    simp only [List.mem_singleton] at hbk
    subst hbk
    exact hk hb

theorem mem_foldl_insKey (l : List α) :
    ∀ (ks : List α) (a : α), a ∈ l.foldl insKey ks ↔ a ∈ ks ∨ a ∈ l := by
  induction l with
  | nil => simp
  | cons x l ih =>
    intro ks a
    simp only [List.foldl_cons, ih, mem_insKey, List.mem_cons]
    tauto

theorem nodup_foldl_insKey (l : List α) :
    ∀ ks : List α, ks.Nodup → (l.foldl insKey ks).Nodup := by
  induction l with
  | nil => exact fun ks h => h
  | cons x l ih => exact fun ks h => ih _ (nodup_insKey ks x h)

theorem mem_firstSeen (l : List α) (a : α) : a ∈ firstSeen l ↔ a ∈ l := by
  simpa using mem_foldl_insKey l [] a

theorem nodup_firstSeen (l : List α) : (firstSeen l).Nodup :=
  nodup_foldl_insKey l [] List.nodup_nil

theorem firstSeen_append (l : List α) (a : α) :
    firstSeen (l ++ [a]) = insKey (firstSeen l) a := by
  simp [firstSeen, List.foldl_append]

theorem foldKey_append (key : σ → α) (f : σ → β → β) (k : α) (b : β)
    (xs : List σ) (x : σ) :
    foldKey key f k b (xs ++ [x]) =
      if key x = k then f x (foldKey key f k b xs)
      else foldKey key f k b xs := by
  simp only [foldKey, List.foldl_append, List.foldl_cons, List.foldl_nil]

theorem foldKey_eq_of_not_mem (key : σ → α) (f : σ → β → β) (k : α) :
    ∀ (xs : List σ) (b : β), k ∉ xs.map key → foldKey key f k b xs = b
  | [], _, _ => rfl
  | x :: xs, b, h => by
    simp only [List.map_cons, List.mem_cons, not_or] at h
    have hx : ¬ key x = k := fun hk => h.1 hk.symm
    show foldKey key f k (if key x = k then f x b else b) xs = b
    rw [if_neg hx]
    exact foldKey_eq_of_not_mem key f k xs b h.2

theorem updD_graph_of_mem (ks : List α) (g : α → β) (k0 : α) (dflt : β)
    (f0 : β → β) (h : k0 ∈ ks) :
    updD (ks.map (fun k => (k, g k))) k0 dflt f0 =
      ks.map (fun k => (k, if k = k0 then f0 (g k0) else g k)) := by
  have hl : lookup? (ks.map (fun k => (k, g k))) k0 = some (g k0) := by
    rw [lookup?_map_graph, if_pos h]
  unfold updD
  rw [hl]
  simp only [Option.isSome_some, Option.getD_some, if_true]
  rw [List.map_map]
  apply List.map_congr_left
  intro k _
  simp only [Function.comp_apply]
  by_cases hkk : k = k0
  · subst hkk; simp
  · simp [hkk]

theorem updD_graph_of_not_mem (ks : List α) (g : α → β) (k0 : α) (dflt : β)
    (f0 : β → β) (h : k0 ∉ ks) :
    updD (ks.map (fun k => (k, g k))) k0 dflt f0 =
      ks.map (fun k => (k, g k)) ++ [(k0, f0 dflt)] := by
  have hl : lookup? (ks.map (fun k => (k, g k))) k0 = none := by
    rw [lookup?_map_graph, if_neg h]
  unfold updD
  rw [hl]
  simp

/-- Structure of a dictionary filled by one accumulator pass: one entry per
distinct key in first-appearance order, the value being the per-key fold of
all updates whose record has that key. -/
theorem foldUpd_eq (key : σ → α) (d : α → β) (f : σ → β → β) (xs : List σ) :
    foldUpd key d f xs =
      (firstSeen (xs.map key)).map
        (fun k => (k, foldKey key f k (d k) xs)) := by
  induction xs using List.reverseRecOn with
  | nil => rfl
  | append_singleton xs x ih =>
    have hfold : foldUpd key d f (xs ++ [x]) =
        updD (foldUpd key d f xs) (key x) (d (key x)) (f x) := by
      simp [foldUpd, List.foldl_append]
    rw [hfold, ih]
    have hm : (xs ++ [x]).map key = xs.map key ++ [key x] := by simp
    rw [hm, firstSeen_append]
    by_cases hmem : key x ∈ firstSeen (xs.map key)
    · have hmem' : key x ∈ xs.map key := (mem_firstSeen _ _).1 hmem
      rw [updD_graph_of_mem _ _ _ _ _ hmem]
      rw [insKey, if_pos hmem]
      apply List.map_congr_left
      intro k _
      rw [foldKey_append]
      by_cases hkk : k = key x
      · subst hkk
        simp
      · rw [if_neg (fun h : key x = k => hkk h.symm), if_neg hkk]
    · have hmem' : key x ∉ xs.map key := fun h => hmem ((mem_firstSeen _ _).2 h)
      rw [updD_graph_of_not_mem _ _ _ _ _ hmem]
      rw [insKey, if_neg hmem, List.map_append]
      congr 1
      · apply List.map_congr_left
        intro k hk
        rw [foldKey_append]
        have hne : k ≠ key x := fun h => hmem (h ▸ hk)
        rw [if_neg (fun h : key x = k => hne h.symm)]
      · simp only [List.map_cons, List.map_nil, List.cons.injEq, and_true]
        rw [foldKey_append, if_pos rfl,
          foldKey_eq_of_not_mem key f _ _ _ hmem']

end DictLemmas

/-! ## Name normalizer (`_name_sort_key`)

`_EMOJI_PATTERN.sub("", name).strip().lower()` with a fallback to
`name.lower()` when the cleaned string is empty.  Characters are handled
through `String.data`; `.lower()` is `Char.toLower` (the source data is
ASCII apart from the stripped symbol ranges). -/

/-- Membership in one of the code-point ranges of `_EMOJI_PATTERN`. -/
def isEmojiChar (c : Char) : Bool :=
  (0x1F300 ≤ c.toNat && c.toNat ≤ 0x1F9FF) ||
  (0x1F600 ≤ c.toNat && c.toNat ≤ 0x1F64F) ||
  (0x1F680 ≤ c.toNat && c.toNat ≤ 0x1F6FF) ||
  (0x1F1E0 ≤ c.toNat && c.toNat ≤ 0x1F1FF) ||
  (0x2600 ≤ c.toNat && c.toNat ≤ 0x26FF) ||
  (0x2700 ≤ c.toNat && c.toNat ≤ 0x27BF)

/-- The whitespace set stripped by Python `str.strip()`. -/
def isPyWhitespace (c : Char) : Bool :=
  c.toNat = 0x9 || c.toNat = 0xA || c.toNat = 0xB || c.toNat = 0xC ||
  c.toNat = 0xD || c.toNat = 0x1C || c.toNat = 0x1D || c.toNat = 0x1E ||
  c.toNat = 0x1F || c.toNat = 0x20 || c.toNat = 0x85 || c.toNat = 0xA0 ||
  c.toNat = 0x1680 || (0x2000 ≤ c.toNat && c.toNat ≤ 0x200A) ||
  c.toNat = 0x2028 || c.toNat = 0x2029 || c.toNat = 0x202F ||
  c.toNat = 0x205F || c.toNat = 0x3000

/-- Remove all leading and all trailing characters satisfying `p`. -/
def stripWhile {α : Type} (p : α → Bool) (l : List α) : List α :=
  ((l.dropWhile p).reverse.dropWhile p).reverse

/-- The regex substitution `_EMOJI_PATTERN.sub("", ·)`. -/
def subEmoji (l : List Char) : List Char :=
  l.filter (fun c => !isEmojiChar c)

/-- Python `str.strip()`. -/
def stripChars (l : List Char) : List Char :=
  stripWhile isPyWhitespace l

/-- Python `str.lower()`. -/
def lowerChars (l : List Char) : List Char :=
  l.map Char.toLower

/-- The `cleaned` intermediate of `_name_sort_key`. -/
def cleanedName (l : List Char) : List Char :=
  lowerChars (stripChars (subEmoji l))

/-- Character-level `_name_sort_key`: `cleaned or name.lower()`. -/
def nameKeyChars (l : List Char) : List Char :=
  if cleanedName l = [] then lowerChars l else cleanedName l

/-- The sort key used for competitor names (`_name_sort_key`). -/
def name_sort_key (s : String) : String :=
  String.mk (nameKeyChars s.data)

/-- Python `str.lower()` on strings. -/
def str_lower (s : String) : String :=
  String.mk (lowerChars s.data)

section CharLemmas

theorem char_toNat_ofNat {n : Nat} (h : n < 55296) :
    (Char.ofNat n).toNat = n := by
  have hv : n.isValidChar := Or.inl h
  unfold Char.ofNat
  rw [dif_pos hv]
  rfl

theorem char_eq_of_toNat_eq {a b : Char} (h : a.toNat = b.toNat) : a = b :=
  Char.ext (UInt32.toNat.inj h)

theorem toLower_of_upper {c : Char} (h : 65 ≤ c.toNat ∧ c.toNat ≤ 90) :
    Char.toLower c = Char.ofNat (c.toNat + 32) := by
  simp [Char.toLower, h.1, h.2]

theorem toLower_of_not_upper {c : Char} (h : ¬(65 ≤ c.toNat ∧ c.toNat ≤ 90)) :
    Char.toLower c = c := by
  simp only [Char.toLower, ge_iff_le]
  rw [if_neg h]

theorem toNat_toLower (c : Char) :
    (Char.toLower c).toNat =
      if 65 ≤ c.toNat ∧ c.toNat ≤ 90 then c.toNat + 32 else c.toNat := by
  by_cases h : 65 ≤ c.toNat ∧ c.toNat ≤ 90
  · rw [if_pos h, toLower_of_upper h, char_toNat_ofNat (by omega)]
  · rw [if_neg h, toLower_of_not_upper h]

theorem toLower_toLower (c : Char) :
    Char.toLower (Char.toLower c) = Char.toLower c := by
  apply toLower_of_not_upper
  rw [toNat_toLower]
  by_cases h : 65 ≤ c.toNat ∧ c.toNat ≤ 90
  · rw [if_pos h]; omega
  · rw [if_neg h]; exact h

theorem isEmojiChar_eq_false_of_lt {c : Char} (h : c.toNat < 0x2600) :
    isEmojiChar c = false := by
  have hn : ¬ isEmojiChar c = true := by
    simp only [isEmojiChar, Bool.or_eq_true, Bool.and_eq_true, decide_eq_true_eq]
    omega
  exact Bool.eq_false_iff.mpr hn

theorem isEmojiChar_toLower (c : Char) :
    isEmojiChar (Char.toLower c) = isEmojiChar c := by
  by_cases h : 65 ≤ c.toNat ∧ c.toNat ≤ 90
  · have h1 : isEmojiChar c = false := isEmojiChar_eq_false_of_lt (by omega)
    have h2 : isEmojiChar (Char.toLower c) = false := by
      apply isEmojiChar_eq_false_of_lt
      rw [toNat_toLower, if_pos h]
      omega
    rw [h1, h2]
  · rw [toLower_of_not_upper h]

theorem isPyWhitespace_eq_false_of_mid {c : Char}
    (h1 : 32 < c.toNat) (h2 : c.toNat < 0x85) :
    isPyWhitespace c = false := by
  have hn : ¬ isPyWhitespace c = true := by
    simp only [isPyWhitespace, Bool.or_eq_true, Bool.and_eq_true,
      decide_eq_true_eq]
    omega
  exact Bool.eq_false_iff.mpr hn

theorem isPyWhitespace_toLower (c : Char) :
    isPyWhitespace (Char.toLower c) = isPyWhitespace c := by
  by_cases h : 65 ≤ c.toNat ∧ c.toNat ≤ 90
  · have h1 : isPyWhitespace c = false :=
      isPyWhitespace_eq_false_of_mid (by omega) (by omega)
    have h2 : isPyWhitespace (Char.toLower c) = false := by
      apply isPyWhitespace_eq_false_of_mid
      · rw [toNat_toLower, if_pos h]; omega
      · rw [toNat_toLower, if_pos h]; omega
    rw [h1, h2]
  · rw [toLower_of_not_upper h]

end CharLemmas

section NameKeyLemmas

theorem dropWhile_dropWhile {α : Type} (p : α → Bool) (l : List α) :
    (l.dropWhile p).dropWhile p = l.dropWhile p := by
  induction l with
  | nil => rfl
  | cons a l ih =>
    rw [List.dropWhile_cons]
    split
    · exact ih
    · rename_i h
      rw [List.dropWhile_cons, if_neg h]

theorem dropWhile_prefix_fixed {α : Type} (p : α → Bool) {l₁ l₂ : List α}
    (h : l₂.dropWhile p = l₂) (hp : l₁ <+: l₂) : l₁.dropWhile p = l₁ := by
  cases l₁ with
  | nil => rfl
  | cons a t =>
    obtain ⟨r, hr⟩ := hp
    rw [← hr, List.cons_append, List.dropWhile_cons] at h
    rw [List.dropWhile_cons]
    by_cases hpa : p a
    · rw [if_pos hpa] at h
      exfalso
      have hle := ((t ++ r).dropWhile_sublist p).length_le
      have hlen := congrArg List.length h
      rw [List.length_cons] at hlen
      omega
    · rw [if_neg hpa]

theorem dropWhile_stripWhile {α : Type} (p : α → Bool) (l : List α) :
    (stripWhile p l).dropWhile p = stripWhile p l := by
  apply dropWhile_prefix_fixed p (dropWhile_dropWhile p l)
  have hs : (l.dropWhile p).reverse.dropWhile p <:+ (l.dropWhile p).reverse :=
    List.dropWhile_suffix p
  have := List.reverse_prefix.mpr hs
  rwa [List.reverse_reverse] at this

theorem stripWhile_idem {α : Type} (p : α → Bool) (l : List α) :
    stripWhile p (stripWhile p l) = stripWhile p l := by
  conv_lhs => rw [stripWhile, dropWhile_stripWhile]
  rw [stripWhile, List.reverse_reverse, dropWhile_dropWhile]

theorem stripWhile_subset {α : Type} (p : α → Bool) (l : List α) :
    stripWhile p l ⊆ l := by
  intro x hx
  rw [stripWhile, List.mem_reverse] at hx
  have hx1 := (List.dropWhile_sublist p).subset hx
  rw [List.mem_reverse] at hx1
  exact (List.dropWhile_sublist p).subset hx1

theorem stripWhile_map {α : Type} (f : α → α) (p : α → Bool) (l : List α)
    (hc : ∀ a, p (f a) = p a) :
    stripWhile p (l.map f) = (stripWhile p l).map f := by
  have hpf : (p ∘ f) = p := funext hc
  unfold stripWhile
  rw [List.dropWhile_map, hpf, ← List.map_reverse, List.dropWhile_map, hpf,
    ← List.map_reverse]

theorem subEmoji_lowerChars (l : List Char) :
    subEmoji (lowerChars l) = lowerChars (subEmoji l) := by
  simp only [subEmoji, lowerChars]
  rw [List.filter_map]
  congr 1
  apply List.filter_congr
  intro c _
  simp only [Function.comp_apply, isEmojiChar_toLower]

theorem stripChars_lowerChars (l : List Char) :
    stripChars (lowerChars l) = lowerChars (stripChars l) := by
  simp only [stripChars, lowerChars]
  exact stripWhile_map Char.toLower isPyWhitespace l isPyWhitespace_toLower

theorem lowerChars_idem (l : List Char) :
    lowerChars (lowerChars l) = lowerChars l := by
  rw [lowerChars, lowerChars, List.map_map]
  apply List.map_congr_left
  intro c _
  exact toLower_toLower c

theorem cleanedName_lowerChars (l : List Char) :
    cleanedName (lowerChars l) = cleanedName l := by
  rw [cleanedName, cleanedName, subEmoji_lowerChars, stripChars_lowerChars,
    lowerChars_idem]

theorem subEmoji_cleanedName (l : List Char) :
    subEmoji (cleanedName l) = cleanedName l := by
  rw [subEmoji, List.filter_eq_self]
  intro a ha
  rw [cleanedName, lowerChars, List.mem_map] at ha
  obtain ⟨b, hb, rfl⟩ := ha
  have hb1 : b ∈ subEmoji l := stripWhile_subset _ _ hb
  rw [subEmoji, List.mem_filter] at hb1
  rw [isEmojiChar_toLower]
  exact hb1.2

theorem stripChars_cleanedName (l : List Char) :
    stripChars (cleanedName l) = cleanedName l := by
  rw [cleanedName, stripChars_lowerChars, stripChars, stripChars,
    stripWhile_idem]

theorem lowerChars_cleanedName (l : List Char) :
    lowerChars (cleanedName l) = cleanedName l := by
  rw [cleanedName, lowerChars_idem]

theorem cleanedName_cleanedName (l : List Char) :
    cleanedName (cleanedName l) = cleanedName l := by
  show lowerChars (stripChars (subEmoji (cleanedName l))) = cleanedName l
  rw [subEmoji_cleanedName, stripChars_cleanedName, lowerChars_cleanedName]

theorem nameKeyChars_idem (l : List Char) :
    nameKeyChars (nameKeyChars l) = nameKeyChars l := by
  by_cases h : cleanedName l = []
  · have h1 : nameKeyChars l = lowerChars l := by rw [nameKeyChars, if_pos h]
    rw [h1]
    have h2 : cleanedName (lowerChars l) = [] := by
      rw [cleanedName_lowerChars, h]
    rw [nameKeyChars, h2, if_pos rfl]
    exact lowerChars_idem l
  · have h1 : nameKeyChars l = cleanedName l := by rw [nameKeyChars, if_neg h]
    rw [h1, nameKeyChars, cleanedName_cleanedName, if_neg h]

theorem nameKeyChars_of_lower_eq {s t : List Char}
    (h : lowerChars s = lowerChars t) : nameKeyChars s = nameKeyChars t := by
  have hc : cleanedName s = cleanedName t := by
    rw [← cleanedName_lowerChars s, h, cleanedName_lowerChars]
  rw [nameKeyChars, nameKeyChars, hc, h]

end NameKeyLemmas

/-! ## Voter statistics (`VoterStats` properties and `load_voter_stats`)

The competitor mapping (`load_competitors` output, a `dict` id → name) is
passed as an association list with pairwise distinct keys.  Floats are
embedded as exact rationals. -/

/-- Property `avg_points_per_vote`: `total_points / num_votes`, `0.0` when
`num_votes == 0`. -/
def avg_points_per_vote (s : VoterStats) : ℚ :=
  if s.num_votes = 0 then 0 else (s.total_points : ℚ) / (s.num_votes : ℚ)

/-- Property `avg_points_when_positive`: `total_points / num_positive_votes`,
`0.0` when `num_positive_votes == 0`. -/
def avg_points_when_positive (s : VoterStats) : ℚ :=
  if s.num_positive_votes = 0 then 0
  else (s.total_points : ℚ) / (s.num_positive_votes : ℚ)

/-- The fresh zero record `VoterStats(voter_id=voter_id, name=name)` with
`name = competitors.get(voter_id, voter_id)`. -/
def freshStats (competitors : List (String × String)) (voter_id : String) :
    VoterStats :=
  { voter_id := voter_id
    name := (lookup? competitors voter_id).getD voter_id
    total_points := 0
    num_votes := 0
    num_positive_votes := 0 }

/-- The three `+=` statements of the `load_voter_stats` loop body. -/
def applyVote (v : Vote) (s : VoterStats) : VoterStats :=
  { s with
    total_points := s.total_points + v.pointsAssigned
    num_votes := s.num_votes + 1
    num_positive_votes :=
      s.num_positive_votes + (if 0 < v.pointsAssigned then 1 else 0) }

/-- `load_voter_stats`: one pass over the votes filling `stats_map`
(id → `VoterStats`, insertion ordered), then `list(stats_map.values())`. -/
def load_voter_stats (votes : List Vote)
    (competitors : List (String × String)) : List VoterStats :=
  (votes.foldl
    (fun m v => updD m v.voterId (freshStats competitors v.voterId)
      (applyVote v)) []).map (fun e => e.2)

/-! ## Vote matrix (`build_vote_matrix`) -/

/-- `_load_submission_map`: `(round_id, uri) -> submitter_id`, one `dict`
assignment per submission row. -/
def submission_map (subs : List Submission) :
    List ((String × String) × String) :=
  subs.foldl (fun m s => insertD m (s.roundId, s.spotifyUri) s.submitterId) []

/-- Index of the first occurrence of an element in a list. -/
def idxOf (l : List String) (a : String) : Nat :=
  match l with
  | [] => 0
  | b :: l' => if b = a then 0 else idxOf l' a + 1

/-- The dictionary `index_for` built from `enumerate(competitor_ids)`,
read with `.get` (`none` for an unknown id). -/
def index_for (ids : List String) (cid : String) : Option Nat :=
  if cid ∈ ids then some (idxOf ids cid) else none

/-- Competitor ids sorted by the normalized name of the competitor
(`sorted(competitors.keys(), key=...)`, a stable ascending sort). -/
def sorted_competitor_ids (competitors : List (String × String)) :
    List String :=
  (competitors.map (fun e => e.1)).mergeSort
    (fun a b =>
      decide (name_sort_key ((lookup? competitors a).getD a)
        ≤ name_sort_key ((lookup? competitors b).getD b)))

/-- The body of the vote loop of `build_vote_matrix`: the four `continue`
guards, then `matrix[giver_idx][receiver_idx] += points`. -/
def matrix_step (smap : List ((String × String) × String))
    (ids : List String) (mat : List (List Int)) (v : Vote) :
    List (List Int) :=
  if v.pointsAssigned ≤ 0 then mat
  else
    match lookup? smap (v.roundId, v.spotifyUri) with
    | none => mat
    | some submitter_id =>
      if v.voterId = submitter_id then mat
      else
        match index_for ids v.voterId, index_for ids submitter_id with
        | some giver_idx, some receiver_idx =>
          mat.set giver_idx
            ((mat.getD giver_idx []).set receiver_idx
              ((mat.getD giver_idx []).getD receiver_idx 0 + v.pointsAssigned))
        | _, _ => mat

/-- `build_vote_matrix`: names in sorted order and the accumulated square
matrix of positive given points. -/
def build_vote_matrix (votes : List Vote) (subs : List Submission)
    (competitors : List (String × String)) :
    List String × List (List Int) :=
  let smap := submission_map subs
  let ids := sorted_competitor_ids competitors
  let names := ids.map (fun cid => (lookup? competitors cid).getD cid)
  let mat0 : List (List Int) :=
    List.replicate ids.length (List.replicate ids.length (0 : Int))
  (names, votes.foldl (matrix_step smap ids) mat0)

/-! ## Top tracks and artists -/

/-- A row of the list built by `build_top_tracks` (title, artist, resolved
submitter name, resolved round name, total points). -/
structure TrackEntry where
  title : String
  artist : String
  submitter_name : String
  round_name : String
  points : Int
  deriving DecidableEq, Repr

/-- Per-track point totals: `defaultdict(int)` accumulation of
`pointsAssigned` keyed by `(round_id, uri)` (no positivity filter). -/
def track_points_of (votes : List Vote) : List ((String × String) × Int) :=
  votes.foldl
    (fun m v => updD m (v.roundId, v.spotifyUri) 0
      (fun acc => acc + v.pointsAssigned)) []

/-- `load_rounds`: `(round_id, round_name)` pairs sorted by the `Created`
column (stable ascending string sort). -/
def load_rounds (rounds : List RoundRec) : List (String × String) :=
  ((rounds.map (fun r => (r.id, r.name, r.created))).mergeSort
    (fun a b => decide (a.2.2 ≤ b.2.2))).map (fun r => (r.1, r.2.1))

/-- The `round_names` dictionary of `build_top_tracks`; `none` models a
missing rounds file (`rounds_path.exists()` false), giving the empty dict. -/
def round_names_of (rounds : Option (List RoundRec)) :
    List (String × String) :=
  match rounds with
  | none => []
  | some rs => (load_rounds rs).foldl (fun m e => insertD m e.1 e.2) []

/-- One entry of the `tracks` list of `build_top_tracks`: points default to
0, submitter name falls back to the raw id, round name to `"Round"`. -/
def mk_track (tp : List ((String × String) × Int))
    (rn : List (String × String)) (competitors : List (String × String))
    (row : Submission) : TrackEntry :=
  { title := row.title
    artist := row.artist
    submitter_name := (lookup? competitors row.submitterId).getD row.submitterId
    round_name := (lookup? rn row.roundId).getD "Round"
    points := (lookup? tp (row.roundId, row.spotifyUri)).getD 0 }

/-- `build_top_tracks`: decorate every submission row, stable-sort by
points descending (`list.sort(key=..., reverse=True)`), return the first
`top_n`. -/
def build_top_tracks (votes : List Vote) (subs : List Submission)
    (rounds : Option (List RoundRec)) (competitors : List (String × String))
    (top_n : Nat) : List TrackEntry :=
  let tp := track_points_of votes
  let rn := round_names_of rounds
  let tracks := subs.map (mk_track tp rn competitors)
  (tracks.mergeSort (fun a b => decide (b.points ≤ a.points))).take top_n

/-- The `artist_points` dictionary of `build_top_artists`: for every
submission row, add the track's point total to the artist's total. -/
def artist_points_of (subs : List Submission)
    (tp : List ((String × String) × Int)) : List (String × Int) :=
  subs.foldl
    (fun m row => updD m row.artist 0
      (fun acc => acc + (lookup? tp (row.roundId, row.spotifyUri)).getD 0)) []

/-- `build_top_artists`: `sorted(artist_points.items(), key=points,
reverse=True)[:top_n]` as (artist, points) pairs. -/
def build_top_artists (votes : List Vote) (subs : List Submission)
    (top_n : Nat) : List (String × Int) :=
  let tp := track_points_of votes
  let ap := artist_points_of subs tp
  (ap.mergeSort (fun a b => decide (b.2 ≤ a.2))).take top_n

/-! ## Point histogram (`build_point_histogram`) -/

/-- The `counts` dictionary: occurrences of each point value. -/
def point_counts_of (votes : List Vote) : List (Int × Nat) :=
  votes.foldl
    (fun m v => updD m v.pointsAssigned 0 (fun acc => acc + 1)) []

/-- `build_point_histogram`: empty if no votes, else buckets `0..max_pts`
(`range(max_pts + 1)`, empty when `max_pts < 0`), with `counts.get(p, 0)`. -/
def build_point_histogram (votes : List Vote) : List (Int × Nat) :=
  match point_counts_of votes with
  | [] => []
  | e :: rest =>
    (List.range ((rest.map (fun x => x.1)).foldl max e.1 + 1).toNat).map
      (fun p : Nat =>
        ((p : Int), (lookup? (point_counts_of votes) (p : Int)).getD 0))

/-- The maximum `pointsAssigned` value observed in a vote list (0 if there
are no votes; only used for non-empty lists). -/
def maxPoints (votes : List Vote) : Int :=
  ((votes.map (fun v => v.pointsAssigned)).tail).foldl max
    ((votes.map (fun v => v.pointsAssigned)).headD 0)

/-! ## Report ordering (`build_html`) -/

/-- The sort key of `build_html`: `(avg_points_per_vote, total_points)`. -/
def generosity_key (s : VoterStats) : ℚ × Int :=
  (avg_points_per_vote s, s.total_points)

/-- Python tuple `<=` on the sort keys. -/
def keyLe (p q : ℚ × Int) : Prop :=
  p.1 < q.1 ∨ (p.1 = q.1 ∧ p.2 ≤ q.2)

instance : DecidableRel keyLe := fun p q => by
  unfold keyLe
  infer_instance

/-- `voters_sorted` of `build_html`: stable sort, descending by
`(avg_points_per_vote, total_points)`. -/
def sort_voters (voters : List VoterStats) : List VoterStats :=
  voters.mergeSort
    (fun a b => decide (keyLe (generosity_key b) (generosity_key a)))

/-- The ranked rows of `build_html`'s table (`enumerate(voters_sorted,
start=1)`), keeping the record itself in place of its rendered fields. -/
def table_rows (voters : List VoterStats) : List (Nat × VoterStats) :=
  (sort_voters voters).enum.map (fun e => (e.1 + 1, e.2))

/-- The matrix cell `matrix[i][j]` (0 when out of bounds; every access in
the source is in bounds). -/
def cell (mat : List (List Int)) (i j : Nat) : Int :=
  (mat.getD i []).getD j 0

section MatrixLemmas

theorem idxOf_lt_length {l : List String} {a : String} (h : a ∈ l) :
    idxOf l a < l.length := by
  induction l with
  | nil => cases h
  | cons b l ih =>
    rw [idxOf]
    by_cases hba : b = a
    · rw [if_pos hba]; simp
    · rw [if_neg hba]
      have ha : a ∈ l := by
        rcases List.mem_cons.mp h with h1 | h1
        · exact absurd h1.symm hba
        · exact h1
      simpa [Nat.succ_lt_succ_iff] using ih ha

theorem getElem_idxOf {l : List String} {a : String} (h : a ∈ l)
    (hlt : idxOf l a < l.length) : l[idxOf l a] = a := by
  induction l with
  | nil => cases h
  | cons b l ih =>
    by_cases hba : b = a
    · simp [idxOf, if_pos hba, hba]
    · have ha : a ∈ l := by
        rcases List.mem_cons.mp h with h1 | h1
        · exact absurd h1.symm hba
        · exact h1
      have h1 : idxOf (b :: l) a = idxOf l a + 1 := by rw [idxOf, if_neg hba]
      have h2 : idxOf l a < l.length := idxOf_lt_length ha
      simp only [h1, List.getElem_cons_succ]
      exact ih ha h2

theorem idxOf_inj {l : List String} {a b : String} (ha : a ∈ l) (hb : b ∈ l)
    (h : idxOf l a = idxOf l b) : a = b := by
  have h1 := getElem_idxOf ha (idxOf_lt_length ha)
  have h2 := getElem_idxOf hb (idxOf_lt_length hb)
  rw [← h1, ← h2]
  congr 1

theorem index_for_inj {ids : List String} {a b : String} {i : Nat}
    (ha : index_for ids a = some i) (hb : index_for ids b = some i) :
    a = b := by
  unfold index_for at ha hb
  by_cases hma : a ∈ ids
  · by_cases hmb : b ∈ ids
    · rw [if_pos hma] at ha
      rw [if_pos hmb] at hb
      have hia := Option.some.inj ha
      have hib := Option.some.inj hb
      exact idxOf_inj hma hmb (hia.trans hib.symm)
    · rw [if_neg hmb] at hb; cases hb
  · rw [if_neg hma] at ha; cases ha

theorem index_for_lt {ids : List String} {a : String} {i : Nat}
    (ha : index_for ids a = some i) : i < ids.length := by
  unfold index_for at ha
  by_cases hma : a ∈ ids
  · rw [if_pos hma] at ha
    rw [← Option.some.inj ha]
    exact idxOf_lt_length hma
  · rw [if_neg hma] at ha; cases ha

theorem matrix_step_skip_nonpos (smap : List ((String × String) × String))
    (ids : List String) (mat : List (List Int)) (v : Vote)
    (h : v.pointsAssigned ≤ 0) : matrix_step smap ids mat v = mat := by
  rw [matrix_step, if_pos h]

theorem matrix_step_skip_orphan (smap : List ((String × String) × String))
    (ids : List String) (mat : List (List Int)) (v : Vote)
    (h : lookup? smap (v.roundId, v.spotifyUri) = none) :
    matrix_step smap ids mat v = mat := by
  unfold matrix_step
  split
  · rfl
  · rw [h]

theorem matrix_step_skip_self (smap : List ((String × String) × String))
    (ids : List String) (mat : List (List Int)) (v : Vote) (sub : String)
    (hs : lookup? smap (v.roundId, v.spotifyUri) = some sub)
    (h : v.voterId = sub) : matrix_step smap ids mat v = mat := by
  unfold matrix_step
  split
  · rfl
  · rw [hs]
    simp only [if_pos h]

theorem matrix_step_skip_unknown (smap : List ((String × String) × String))
    (ids : List String) (mat : List (List Int)) (v : Vote) (sub : String)
    (hs : lookup? smap (v.roundId, v.spotifyUri) = some sub)
    (h : index_for ids v.voterId = none ∨ index_for ids sub = none) :
    matrix_step smap ids mat v = mat := by
  unfold matrix_step
  split
  · rfl
  · rw [hs]
    by_cases hself : v.voterId = sub
    · simp only [if_pos hself]
    · simp only [if_neg hself]
      rcases h with h | h <;> rw [h] <;>
        cases index_for ids v.voterId <;> cases index_for ids sub <;> rfl

theorem matrix_step_add (smap : List ((String × String) × String))
    (ids : List String) (mat : List (List Int)) (v : Vote) (sub : String)
    (gi ri : Nat)
    (hpos : ¬ v.pointsAssigned ≤ 0)
    (hs : lookup? smap (v.roundId, v.spotifyUri) = some sub)
    (hself : v.voterId ≠ sub)
    (hgi : index_for ids v.voterId = some gi)
    (hri : index_for ids sub = some ri) :
    matrix_step smap ids mat v =
      mat.set gi ((mat.getD gi []).set ri
        ((mat.getD gi []).getD ri 0 + v.pointsAssigned)) := by
  unfold matrix_step
  rw [if_neg hpos, hs]
  simp only [if_neg hself, hgi, hri]

theorem cell_set_self (mat : List (List Int)) (gi ri : Nat) (x : Int)
    (hgi : gi < mat.length) (hri : ri < (mat.getD gi []).length) :
    cell (mat.set gi ((mat.getD gi []).set ri x)) gi ri = x := by
  unfold cell
  simp only [List.getD_eq_getElem?_getD] at hri ⊢
  rw [List.getElem?_set_self hgi, Option.getD_some,
    List.getElem?_set_self hri, Option.getD_some]

theorem cell_set_other (mat : List (List Int)) (gi ri : Nat) (x : Int)
    (i j : Nat) (hne : ¬(i = gi ∧ j = ri)) :
    cell (mat.set gi ((mat.getD gi []).set ri x)) i j = cell mat i j := by
  unfold cell
  by_cases hig : i = gi
  · subst hig
    have hj : j ≠ ri := fun hj => hne ⟨rfl, hj⟩
    by_cases hlen : i < mat.length
    · simp only [List.getD_eq_getElem?_getD]
      rw [List.getElem?_set_self hlen, Option.getD_some,
        List.getElem?_set_ne (fun h => hj h.symm)]
    · rw [List.set_eq_of_length_le (Nat.le_of_not_lt hlen)]
  · simp only [List.getD_eq_getElem?_getD]
    rw [List.getElem?_set_ne (fun h => hig h.symm)]

end MatrixLemmas

/-! ## Claim theorems -/

/-- C1: a vote is skipped (the matrix is unchanged) when its points are
non-positive, when its `(roundId, spotifyUri)` has no submitter in the
submission map, when the voter is the submitter, or when either id is
absent from the competitor index; otherwise exactly `pointsAssigned` is
added to `cell[voterIndex][submitterIndex]` and every other cell is
unchanged.  A vote with `pointsAssigned = 0` never increments any cell. -/
theorem c1_matrix_vote_step (smap : List ((String × String) × String))
    (ids : List String) (mat : List (List Int)) (v : Vote) :
    (v.pointsAssigned ≤ 0 → matrix_step smap ids mat v = mat)
    ∧ (lookup? smap (v.roundId, v.spotifyUri) = none →
        matrix_step smap ids mat v = mat)
    ∧ (∀ sub, lookup? smap (v.roundId, v.spotifyUri) = some sub →
        v.voterId = sub → matrix_step smap ids mat v = mat)
    ∧ (∀ sub, lookup? smap (v.roundId, v.spotifyUri) = some sub →
        index_for ids v.voterId = none ∨ index_for ids sub = none →
        matrix_step smap ids mat v = mat)
    ∧ (∀ sub gi ri, 0 < v.pointsAssigned →
        lookup? smap (v.roundId, v.spotifyUri) = some sub →
        v.voterId ≠ sub →
        index_for ids v.voterId = some gi →
        index_for ids sub = some ri →
        gi < mat.length → ri < (mat.getD gi []).length →
        cell (matrix_step smap ids mat v) gi ri
            = cell mat gi ri + v.pointsAssigned
          ∧ ∀ i j, ¬(i = gi ∧ j = ri) →
            cell (matrix_step smap ids mat v) i j = cell mat i j) := by
  refine ⟨matrix_step_skip_nonpos smap ids mat v,
    matrix_step_skip_orphan smap ids mat v,
    matrix_step_skip_self smap ids mat v,
    matrix_step_skip_unknown smap ids mat v, ?_⟩
  intro sub gi ri hpos hs hself hgi hri hgilen hrilen
  have hstep := matrix_step_add smap ids mat v sub gi ri (not_le.mpr hpos)
    hs hself hgi hri
  constructor
  · rw [hstep]
    exact cell_set_self mat gi ri _ hgilen hrilen
  · intro i j hne
    rw [hstep]
    exact cell_set_other mat gi ri _ i j hne

/-- Witness for C1 at a concrete input: the positive-vote branch adds the
points to the giver/receiver cell, and a zero-point vote leaves the matrix
untouched. -/
theorem c1_matrix_vote_step_witness :
    cell (matrix_step [(("r1", "t1"), "a")] ["a", "b"]
        [[0, 0], [0, 0]] ⟨"b", "t1", "r1", 3⟩) 1 0
      = cell [[0, 0], [0, 0]] 1 0 + 3
    ∧ matrix_step [(("r1", "t1"), "a")] ["a", "b"]
        [[0, 0], [0, 0]] ⟨"b", "t1", "r1", 0⟩ = [[0, 0], [0, 0]] := by
  constructor
  · exact ((c1_matrix_vote_step [(("r1", "t1"), "a")] ["a", "b"]
      [[0, 0], [0, 0]] ⟨"b", "t1", "r1", 3⟩).2.2.2.2 "a" 1 0
      (by decide) (by decide) (by decide) (by decide) (by decide)
      (by decide) (by decide)).1
  · exact (c1_matrix_vote_step [(("r1", "t1"), "a")] ["a", "b"]
      [[0, 0], [0, 0]] ⟨"b", "t1", "r1", 0⟩).1 (by decide)

/-- C6: both averages are defined as 0 when their denominator count is
zero, and are the exact quotient otherwise; the embedding is total, so no
division-by-zero fault can occur. -/
theorem c6_average_guards (s : VoterStats) :
    (s.num_votes = 0 → avg_points_per_vote s = 0)
    ∧ (s.num_positive_votes = 0 → avg_points_when_positive s = 0)
    ∧ (s.num_votes ≠ 0 →
        avg_points_per_vote s = (s.total_points : ℚ) / (s.num_votes : ℚ))
    ∧ (s.num_positive_votes ≠ 0 →
        avg_points_when_positive s
          = (s.total_points : ℚ) / (s.num_positive_votes : ℚ)) := by
  refine ⟨fun h => ?_, fun h => ?_, fun h => ?_, fun h => ?_⟩
  all_goals simp [avg_points_per_vote, avg_points_when_positive, h]

/-- Witness for C6 at concrete records on both sides of each guard. -/
theorem c6_average_guards_witness :
    avg_points_per_vote ⟨"x", "X", 0, 0, 0⟩ = 0
    ∧ avg_points_when_positive ⟨"x", "X", 0, 5, 0⟩ = 0
    ∧ avg_points_per_vote ⟨"v", "V", 4, 3, 2⟩ = (4 : ℚ) / 3
    ∧ avg_points_when_positive ⟨"v", "V", 4, 3, 2⟩ = (4 : ℚ) / 2 := by
  refine ⟨(c6_average_guards _).1 rfl, (c6_average_guards _).2.1 rfl, ?_, ?_⟩
  · rw [(c6_average_guards ⟨"v", "V", 4, 3, 2⟩).2.2.1 (by decide)]
    norm_num
  · rw [(c6_average_guards ⟨"v", "V", 4, 3, 2⟩).2.2.2 (by decide)]
    norm_num

/-- C8: without a rounds source every produced track carries the
placeholder round label `"Round"`; an unknown round id also resolves to
the placeholder, and an unknown submitter id resolves to the raw id; all
three paths are ordinary total computations. -/
theorem c8_top_tracks_fallbacks (votes : List Vote) (subs : List Submission)
    (competitors : List (String × String)) (top_n : Nat) :
    (∀ t ∈ build_top_tracks votes subs none competitors top_n,
      t.round_name = "Round")
    ∧ (∀ (tp : List ((String × String) × Int)) (rn : List (String × String))
        (row : Submission), lookup? rn row.roundId = none →
        (mk_track tp rn competitors row).round_name = "Round")
    ∧ (∀ (tp : List ((String × String) × Int)) (rn : List (String × String))
        (row : Submission), lookup? competitors row.submitterId = none →
        (mk_track tp rn competitors row).submitter_name = row.submitterId) := by
  refine ⟨?_, ?_, ?_⟩
  · intro t ht
    simp only [build_top_tracks] at ht
    have ht1 := List.mem_of_mem_take ht
    rw [List.mem_mergeSort, List.mem_map] at ht1
    obtain ⟨row, _, rfl⟩ := ht1
    rfl
  · intro tp rn row h
    simp [mk_track, h]
  · intro tp rn row h
    simp [mk_track, h]

/-- Witness for C8 at concrete inputs: missing rounds source, and lookups
that miss. -/
theorem c8_top_tracks_fallbacks_witness :
    (mk_track (track_points_of []) (round_names_of none) []
        ⟨"r1", "t1", "T", "A", "s1"⟩).round_name = "Round"
    ∧ (mk_track [] [] [] ⟨"r1", "t1", "T", "A", "s1"⟩).submitter_name
        = "s1" := by
  constructor
  · refine (c8_top_tracks_fallbacks [] [⟨"r1", "t1", "T", "A", "s1"⟩] [] 1).1
      _ ?_
    simp [build_top_tracks, List.mergeSort_singleton]
  · exact (c8_top_tracks_fallbacks [] [] [] 1).2.2 [] []
      ⟨"r1", "t1", "T", "A", "s1"⟩ rfl

/-- C7: the name sort key is idempotent; names with the same lowercasing
get the same key; and when cleaning leaves the empty string the key is the
lowercase of the original name. -/
theorem c7_name_sort_key (s t : String) (h : str_lower s = str_lower t) :
    name_sort_key (name_sort_key s) = name_sort_key s
    ∧ name_sort_key s = name_sort_key t
    ∧ (cleanedName s.data = [] → name_sort_key s = str_lower s) := by
  have hd : lowerChars s.data = lowerChars t.data := congrArg String.data h
  refine ⟨?_, ?_, ?_⟩
  · exact congrArg String.mk (nameKeyChars_idem s.data)
  · exact congrArg String.mk (nameKeyChars_of_lower_eq hd)
  · intro hc
    rw [name_sort_key, nameKeyChars, if_pos hc, str_lower]

/-- Witness for C7: `"ALICE"` and `"alice"` lowercase identically, so their
keys match; a pure-emoji name falls back to its lowercase form. -/
theorem c7_name_sort_key_witness :
    str_lower "ALICE" = str_lower "alice"
    ∧ name_sort_key (name_sort_key "ALICE") = name_sort_key "ALICE"
    ∧ name_sort_key "ALICE" = name_sort_key "alice"
    ∧ name_sort_key (String.mk [Char.ofNat 0x1F41D])
        = str_lower (String.mk [Char.ofNat 0x1F41D]) := by
  have h : str_lower "ALICE" = str_lower "alice" := by decide
  refine ⟨h, (c7_name_sort_key "ALICE" "alice" h).1,
    (c7_name_sort_key "ALICE" "alice" h).2.1, ?_⟩
  exact (c7_name_sort_key (String.mk [Char.ofNat 0x1F41D])
    (String.mk [Char.ofNat 0x1F41D]) rfl).2.2 (by decide)

section VoterStatsLemmas

theorem load_voter_stats_eq_foldUpd (votes : List Vote)
    (competitors : List (String × String)) :
    load_voter_stats votes competitors =
      (foldUpd (fun v : Vote => v.voterId) (freshStats competitors)
        applyVote votes).map (fun e => e.2) := rfl

theorem foldKey_applyVote (k : String) (votes : List Vote) :
    ∀ s : VoterStats,
      (foldKey (fun v : Vote => v.voterId) applyVote k s votes).voter_id
          = s.voter_id
      ∧ (foldKey (fun v : Vote => v.voterId) applyVote k s votes).name
          = s.name
      ∧ (foldKey (fun v : Vote => v.voterId) applyVote k s votes).total_points
          = s.total_points + ((votes.filter (fun v => v.voterId = k)).map
              (fun v => v.pointsAssigned)).sum
      ∧ (foldKey (fun v : Vote => v.voterId) applyVote k s votes).num_votes
          = s.num_votes + (votes.filter (fun v => v.voterId = k)).length
      ∧ (foldKey (fun v : Vote => v.voterId) applyVote k s
            votes).num_positive_votes
          = s.num_positive_votes + ((votes.filter (fun v => v.voterId = k)).filter
              (fun v => 0 < v.pointsAssigned)).length := by
  induction votes with
  | nil =>
    intro s
    refine ⟨rfl, rfl, ?_, ?_, ?_⟩ <;> simp [foldKey]
  | cons v votes ih =>
    intro s
    have hstep : foldKey (fun v : Vote => v.voterId) applyVote k s (v :: votes)
        = foldKey (fun v : Vote => v.voterId) applyVote k
            (if v.voterId = k then applyVote v s else s) votes := rfl
    by_cases hv : v.voterId = k
    · rw [hstep, if_pos hv]
      obtain ⟨h1, h2, h3, h4, h5⟩ := ih (applyVote v s)
      have hf : (v :: votes).filter (fun v => v.voterId = k)
          = v :: votes.filter (fun v => v.voterId = k) := by
        simp [List.filter_cons, hv]
      refine ⟨h1.trans rfl, h2.trans rfl, ?_, ?_, ?_⟩
      · rw [h3, hf, List.map_cons, List.sum_cons]
        show s.total_points + v.pointsAssigned + _ = _
        omega
      · rw [h4, hf, List.length_cons]
        show s.num_votes + 1 + _ = _
        omega
      · rw [h5, hf, List.filter_cons]
        by_cases hp : 0 < v.pointsAssigned
        · have ha : (applyVote v s).num_positive_votes
              = s.num_positive_votes + 1 := by
            simp [applyVote, hp]
          rw [ha, if_pos (decide_eq_true hp), List.length_cons]
          omega
        · have ha : (applyVote v s).num_positive_votes
              = s.num_positive_votes := by
            simp [applyVote, hp]
          rw [ha, if_neg (fun hc => hp (of_decide_eq_true hc))]
    · rw [hstep, if_neg hv]
      have hf : (v :: votes).filter (fun v => v.voterId = k)
          = votes.filter (fun v => v.voterId = k) := by
        simp [List.filter_cons, hv]
      rw [hf]
      exact ih s

end VoterStatsLemmas

/-- C2: the voter statistics aggregator yields exactly one record per
distinct voter id (ids are pairwise distinct and cover exactly the voters),
each carrying the signed point sum, the total vote count, the positive vote
count and the (fallback) display name; the three-vote scenario of the spec
evaluates as stated. -/
theorem c2_load_voter_stats (votes : List Vote)
    (competitors : List (String × String)) :
    ((load_voter_stats votes competitors).map (fun s => s.voter_id)).Nodup
    ∧ (∀ i : String,
        i ∈ (load_voter_stats votes competitors).map (fun s => s.voter_id)
          ↔ i ∈ votes.map (fun v => v.voterId))
    ∧ (∀ s ∈ load_voter_stats votes competitors,
        s.name = (lookup? competitors s.voter_id).getD s.voter_id
        ∧ s.total_points
            = ((votes.filter (fun v => v.voterId = s.voter_id)).map
                (fun v => v.pointsAssigned)).sum
        ∧ s.num_votes
            = (votes.filter (fun v => v.voterId = s.voter_id)).length
        ∧ s.num_positive_votes
            = ((votes.filter (fun v => v.voterId = s.voter_id)).filter
                (fun v => 0 < v.pointsAssigned)).length)
    ∧ load_voter_stats
        [⟨"v1", "t1", "r1", 3⟩, ⟨"v1", "t2", "r1", 0⟩, ⟨"v1", "t3", "r1", 1⟩]
        [] = [⟨"v1", "v1", 4, 3, 2⟩] := by
  have hL : load_voter_stats votes competitors
      = (firstSeen (votes.map (fun v => v.voterId))).map
          (fun k => foldKey (fun v : Vote => v.voterId) applyVote k
            (freshStats competitors k) votes) := by
    rw [load_voter_stats_eq_foldUpd, foldUpd_eq, List.map_map]
    rfl
  have hids : (load_voter_stats votes competitors).map (fun s => s.voter_id)
      = firstSeen (votes.map (fun v => v.voterId)) := by
    rw [hL, List.map_map]
    have hcomp : ((fun s : VoterStats => s.voter_id) ∘
        fun k => foldKey (fun v : Vote => v.voterId) applyVote k
          (freshStats competitors k) votes) = fun k => k := by
      funext k
      exact (foldKey_applyVote k votes (freshStats competitors k)).1
    rw [hcomp]
    exact List.map_id' _
  refine ⟨?_, ?_, ?_, by decide⟩
  · rw [hids]
    exact nodup_firstSeen _
  · intro i
    rw [hids]
    exact mem_firstSeen _ i
  · intro s hs
    rw [hL, List.mem_map] at hs
    obtain ⟨k, _, rfl⟩ := hs
    obtain ⟨h1, h2, h3, h4, h5⟩ :=
      foldKey_applyVote k votes (freshStats competitors k)
    have hk : (freshStats competitors k).voter_id = k := rfl
    rw [h1, hk]
    refine ⟨?_, ?_, ?_, ?_⟩
    · rw [h2]
      rfl
    · rw [h3]
      show (0 : Int) + _ = _
      omega
    · rw [h4]
      show 0 + _ = _
      omega
    · rw [h5]
      show 0 + _ = _
      omega

/-- Witness for C2 at the spec's scenario: voter `v1` with votes worth
3, 0, 1 points gets totalPoints 4, numVotes 3, numPositiveVotes 2, and the
fallback name `"v1"`. -/
theorem c2_load_voter_stats_witness :
    (⟨"v1", "v1", 4, 3, 2⟩ : VoterStats).name
        = (lookup? ([] : List (String × String)) "v1").getD "v1"
    ∧ (⟨"v1", "v1", 4, 3, 2⟩ : VoterStats).total_points
        = (((([⟨"v1", "t1", "r1", 3⟩, ⟨"v1", "t2", "r1", 0⟩,
            ⟨"v1", "t3", "r1", 1⟩] : List Vote).filter
              (fun v => v.voterId = "v1")).map
              (fun v => v.pointsAssigned)).sum)
    ∧ (⟨"v1", "v1", 4, 3, 2⟩ : VoterStats).num_votes
        = (([⟨"v1", "t1", "r1", 3⟩, ⟨"v1", "t2", "r1", 0⟩,
            ⟨"v1", "t3", "r1", 1⟩] : List Vote).filter
              (fun v => v.voterId = "v1")).length
    ∧ (⟨"v1", "v1", 4, 3, 2⟩ : VoterStats).num_positive_votes
        = ((([⟨"v1", "t1", "r1", 3⟩, ⟨"v1", "t2", "r1", 0⟩,
            ⟨"v1", "t3", "r1", 1⟩] : List Vote).filter
              (fun v => v.voterId = "v1")).filter
              (fun v => 0 < v.pointsAssigned)).length :=
  (c2_load_voter_stats
    [⟨"v1", "t1", "r1", 3⟩, ⟨"v1", "t2", "r1", 0⟩, ⟨"v1", "t3", "r1", 1⟩]
    []).2.2.1 ⟨"v1", "v1", 4, 3, 2⟩ (by decide)

section HistogramLemmas

theorem point_counts_eq_foldUpd (votes : List Vote) :
    point_counts_of votes =
      foldUpd (fun v : Vote => v.pointsAssigned) (fun _ => (0 : Nat))
        (fun _ acc => acc + 1) votes := rfl

theorem foldKey_count (k : Int) (votes : List Vote) :
    ∀ b : Nat,
      foldKey (fun v : Vote => v.pointsAssigned) (fun _ acc => acc + 1) k b
          votes
        = b + (votes.filter (fun v => v.pointsAssigned = k)).length := by
  induction votes with
  | nil => intro b; simp [foldKey]
  | cons v votes ih =>
    intro b
    have hstep : foldKey (fun v : Vote => v.pointsAssigned)
          (fun _ acc => acc + 1) k b (v :: votes)
        = foldKey (fun v : Vote => v.pointsAssigned) (fun _ acc => acc + 1) k
            (if v.pointsAssigned = k then b + 1 else b) votes := rfl
    rw [hstep, List.filter_cons]
    by_cases hv : v.pointsAssigned = k
    · rw [if_pos hv, ih, if_pos (decide_eq_true hv), List.length_cons]
      omega
    · rw [if_neg hv, ih, if_neg (fun hc => hv (of_decide_eq_true hc))]

theorem point_counts_eq (votes : List Vote) :
    point_counts_of votes
      = (firstSeen (votes.map (fun v => v.pointsAssigned))).map
          (fun k => (k,
            (votes.filter (fun v => v.pointsAssigned = k)).length)) := by
  rw [point_counts_eq_foldUpd, foldUpd_eq]
  apply List.map_congr_left
  intro k _
  rw [foldKey_count, Nat.zero_add]

theorem lookup?_point_counts (votes : List Vote) (p : Int) :
    (lookup? (point_counts_of votes) p).getD 0
      = (votes.filter (fun v => v.pointsAssigned = p)).length := by
  rw [point_counts_eq, lookup?_map_graph]
  by_cases hp : p ∈ firstSeen (votes.map fun v => v.pointsAssigned)
  · rw [if_pos hp, Option.getD_some]
  · rw [if_neg hp]
    have hnil : votes.filter (fun v => v.pointsAssigned = p) = [] := by
      rw [List.filter_eq_nil_iff]
      intro v hv hvp
      exact hp ((mem_firstSeen _ _).2
        (List.mem_map.2 ⟨v, hv, of_decide_eq_true hvp⟩))
    rw [hnil]
    rfl

theorem foldl_max_spec (l : List Int) :
    ∀ k : Int, l.foldl max k ∈ k :: l ∧ ∀ x ∈ k :: l, x ≤ l.foldl max k := by
  induction l with
  | nil =>
    intro k
    exact ⟨by simp, by simp⟩
  | cons a l ih =>
    intro k
    obtain ⟨hmem, hub⟩ := ih (max k a)
    constructor
    · rcases List.mem_cons.mp hmem with h | h
      · rcases max_choice k a with hk | hk
        · rw [List.foldl_cons, h, hk]
          exact List.mem_cons_self _ _
        · rw [List.foldl_cons, h, hk]
          exact List.mem_cons.2 (Or.inr (List.mem_cons_self _ _))
      · exact List.mem_cons.2 (Or.inr (List.mem_cons.2 (Or.inr h)))
    · intro x hx
      rcases List.mem_cons.mp hx with rfl | hx
      · exact le_trans (le_max_left x a) (hub _ (List.mem_cons_self _ _))
      · rcases List.mem_cons.mp hx with rfl | hx
        · exact le_trans (le_max_right k x) (hub _ (List.mem_cons_self _ _))
        · exact hub _ (List.mem_cons.2 (Or.inr hx))

theorem foldl_max_congr {k1 k2 : Int} {l1 l2 : List Int}
    (h : ∀ x, x ∈ k1 :: l1 ↔ x ∈ k2 :: l2) :
    l1.foldl max k1 = l2.foldl max k2 := by
  obtain ⟨m1, u1⟩ := foldl_max_spec l1 k1
  obtain ⟨m2, u2⟩ := foldl_max_spec l2 k2
  exact le_antisymm (u2 _ ((h _).1 m1)) (u1 _ ((h _).2 m2))

theorem maxPoints_cons_eq {votes : List Vote} {p : Int} {ps : List Int}
    (hps : votes.map (fun v => v.pointsAssigned) = p :: ps) :
    maxPoints votes = ps.foldl max p := by
  rw [maxPoints, hps]
  rfl

theorem maxPoints_mem (votes : List Vote) (hne : votes ≠ []) :
    maxPoints votes ∈ votes.map (fun v => v.pointsAssigned)
    ∧ ∀ x ∈ votes.map (fun v => v.pointsAssigned), x ≤ maxPoints votes := by
  obtain ⟨p, ps, hps⟩ : ∃ p ps, votes.map (fun v => v.pointsAssigned)
      = p :: ps := by
    cases hv : votes.map (fun v => v.pointsAssigned) with
    | nil =>
      rw [List.map_eq_nil_iff] at hv
      exact absurd hv hne
    | cons p ps => exact ⟨p, ps, rfl⟩
  rw [maxPoints_cons_eq hps, hps]
  exact foldl_max_spec ps p

theorem build_point_histogram_eq (votes : List Vote) (hne : votes ≠ []) :
    build_point_histogram votes
      = (List.range (maxPoints votes + 1).toNat).map
          (fun p : Nat => ((p : Int),
            (votes.filter
              (fun v => v.pointsAssigned = (p : Int))).length)) := by
  unfold build_point_histogram
  split
  · rename_i heq
    exfalso
    have hpc := point_counts_eq votes
    rw [heq] at hpc
    have hm : votes.map (fun v => v.pointsAssigned) ≠ [] := by
      simpa using hne
    obtain ⟨p, hp⟩ := List.exists_mem_of_ne_nil _ hm
    have hpf := (mem_firstSeen (votes.map fun v => v.pointsAssigned) p).2 hp
    have hks : firstSeen (votes.map fun v => v.pointsAssigned) = [] := by
      have h2 := hpc.symm
      rwa [List.map_eq_nil_iff] at h2
    rw [hks] at hpf
    cases hpf
  · rename_i e rest heq
    have hpc := point_counts_eq votes
    rw [heq] at hpc
    have hfst : e.1 :: rest.map (fun x => x.1)
        = firstSeen (votes.map (fun v => v.pointsAssigned)) := by
      have hm := congrArg (List.map (fun x : Int × Nat => x.1)) hpc
      rw [List.map_cons, List.map_map] at hm
      have hcomp : ((fun x : Int × Nat => x.1) ∘ (fun k : Int =>
          (k, (votes.filter (fun v => v.pointsAssigned = k)).length)))
          = fun k => k := funext (fun k => rfl)
      rw [hcomp, List.map_id'] at hm
      exact hm
    have hmax : (rest.map (fun x => x.1)).foldl max e.1 = maxPoints votes := by
      obtain ⟨p, ps, hps⟩ : ∃ p ps, votes.map (fun v => v.pointsAssigned)
          = p :: ps := by
        cases hv : votes.map (fun v => v.pointsAssigned) with
        | nil =>
          rw [List.map_eq_nil_iff] at hv
          exact absurd hv hne
        | cons p ps => exact ⟨p, ps, rfl⟩
      rw [maxPoints_cons_eq hps]
      apply foldl_max_congr
      intro x
      rw [show x ∈ e.1 :: rest.map (fun x => x.1)
          ↔ x ∈ firstSeen (votes.map fun v => v.pointsAssigned) from by
        rw [hfst]]
      rw [mem_firstSeen, hps]
    rw [hmax]
    apply List.map_congr_left
    intro p _
    rw [lookup?_point_counts]

end HistogramLemmas

/-- Counterexample to C3 as stated: for the non-empty vote list whose only
vote carries -2 points, the maximum observed value is M = -2 but the
histogram is empty, so it does not have "exactly M + 1 entries". -/
theorem c3_point_histogram_counterexample :
    ([⟨"v1", "t1", "r1", -2⟩] : List Vote) ≠ []
    ∧ maxPoints [⟨"v1", "t1", "r1", -2⟩] = -2
    ∧ build_point_histogram [⟨"v1", "t1", "r1", -2⟩] = []
    ∧ ((build_point_histogram [⟨"v1", "t1", "r1", -2⟩]).length : Int)
        ≠ maxPoints [⟨"v1", "t1", "r1", -2⟩] + 1 := by
  refine ⟨by decide, by decide, by decide, by decide⟩

/-- C3 (amended): for a non-empty vote list with maximum observed value M,
when M ≥ 0 the histogram has exactly M + 1 entries, the i-th entry being
the point value i with the number of votes worth exactly i points (0 when
never observed); when M < 0 (`range` of a non-positive bound) the result is
empty, as for no votes at all. -/
theorem c3_point_histogram (votes : List Vote) (hne : votes ≠ []) :
    (0 ≤ maxPoints votes →
      ((build_point_histogram votes).length : Int) = maxPoints votes + 1
      ∧ ∀ i : Nat, i < (build_point_histogram votes).length →
          (build_point_histogram votes)[i]?
            = some ((i : Int),
              (votes.filter (fun v => v.pointsAssigned = (i : Int))).length))
    ∧ (maxPoints votes < 0 → build_point_histogram votes = []) := by
  have hb := build_point_histogram_eq votes hne
  constructor
  · intro hM
    constructor
    · rw [hb, List.length_map, List.length_range]
      omega
    · intro i hi
      rw [hb, List.length_map, List.length_range] at hi
      rw [hb, List.getElem?_map, List.getElem?_range hi]
      rfl
  · intro hM
    rw [hb]
    have h0 : (maxPoints votes + 1).toNat = 0 := by omega
    rw [h0]
    rfl

/-- Witness for C3 (amended) at the spec's scenario votes with points
0, 1, 2, 2, 5: six entries, and bucket 3 carries count 0. -/
theorem c3_point_histogram_witness :
    ((build_point_histogram
        [⟨"a", "t1", "r", 0⟩, ⟨"a", "t2", "r", 1⟩, ⟨"a", "t3", "r", 2⟩,
          ⟨"a", "t4", "r", 2⟩, ⟨"a", "t5", "r", 5⟩]).length : Int)
      = maxPoints
          [⟨"a", "t1", "r", 0⟩, ⟨"a", "t2", "r", 1⟩, ⟨"a", "t3", "r", 2⟩,
            ⟨"a", "t4", "r", 2⟩, ⟨"a", "t5", "r", 5⟩] + 1
    ∧ (build_point_histogram
        [⟨"a", "t1", "r", 0⟩, ⟨"a", "t2", "r", 1⟩, ⟨"a", "t3", "r", 2⟩,
          ⟨"a", "t4", "r", 2⟩, ⟨"a", "t5", "r", 5⟩])[3]?
      = some ((3 : Int), 0) := by
  constructor
  · exact ((c3_point_histogram _ (by decide)).1 (by decide)).1
  · have h := ((c3_point_histogram
      [⟨"a", "t1", "r", 0⟩, ⟨"a", "t2", "r", 1⟩, ⟨"a", "t3", "r", 2⟩,
        ⟨"a", "t4", "r", 2⟩, ⟨"a", "t5", "r", 5⟩] (by decide)).1
      (by decide)).2 3 (by decide)
    rw [h]
    decide

/-- C10: when every observed point value is negative the maximum is
negative, `range(max_pts + 1)` is empty, and the histogram is the empty
list, exactly as for no votes at all. -/
theorem c10_histogram_all_negative (votes : List Vote) (hne : votes ≠ [])
    (hneg : ∀ v ∈ votes, v.pointsAssigned < 0) :
    build_point_histogram votes = [] := by
  have hb := build_point_histogram_eq votes hne
  have hM : maxPoints votes < 0 := by
    obtain ⟨hmem, _⟩ := maxPoints_mem votes hne
    rw [List.mem_map] at hmem
    obtain ⟨v, hv, heq⟩ := hmem
    rw [← heq]
    exact hneg v hv
  rw [hb]
  have h0 : (maxPoints votes + 1).toNat = 0 := by omega
  rw [h0]
  rfl

/-- Witness for C10: two negative votes produce the empty histogram. -/
theorem c10_histogram_all_negative_witness :
    build_point_histogram
      [⟨"v1", "t1", "r1", -2⟩, ⟨"v2", "t1", "r1", -5⟩] = [] :=
  c10_histogram_all_negative
    [⟨"v1", "t1", "r1", -2⟩, ⟨"v2", "t1", "r1", -5⟩]
    (by decide) (by decide)

section SortTakeLemmas

variable {α : Type}

theorem sorted_take_by_points (pts : α → Int) (l : List α) (n : Nat) :
    ((l.mergeSort (fun a b => decide (pts b ≤ pts a))).take n).length
        = min n l.length
    ∧ ((l.mergeSort (fun a b => decide (pts b ≤ pts a))).take n).Pairwise
        (fun a b => pts b ≤ pts a)
    ∧ ∀ p : Int,
        ((l.mergeSort (fun a b => decide (pts b ≤ pts a))).take n).filter
            (fun a => pts a = p)
          <+: l.filter (fun a => pts a = p) := by
  have htrans : ∀ a b c : α, decide (pts b ≤ pts a) → decide (pts c ≤ pts b)
      → decide (pts c ≤ pts a) := by
    intro a b c hab hbc
    exact decide_eq_true
      (le_trans (of_decide_eq_true hbc) (of_decide_eq_true hab))
  have htotal : ∀ a b : α,
      decide (pts b ≤ pts a) || decide (pts a ≤ pts b) := by
    intro a b
    rcases le_total (pts b) (pts a) with h | h
    · rw [decide_eq_true h]
      rfl
    · rw [decide_eq_true h, Bool.or_true]
  refine ⟨?_, ?_, ?_⟩
  · rw [List.length_take, List.length_mergeSort]
  · have hs := List.sorted_mergeSort htrans htotal l
    exact (hs.imp (fun h => of_decide_eq_true h)).sublist
      (List.take_sublist n _)
  · intro p
    have hall : ∀ a ∈ l.filter (fun a => pts a = p), pts a = p := by
      intro a ha
      exact of_decide_eq_true (List.mem_filter.1 ha).2
    have hsl : (l.filter (fun a => pts a = p)).Sublist
        (l.mergeSort (fun a b => decide (pts b ≤ pts a))) := by
      apply List.sublist_mergeSort htrans htotal
      · apply List.pairwise_of_forall_mem_list
        intro a ha b hb
        rw [hall a ha, hall b hb]
        exact decide_eq_true le_rfl
      · exact List.filter_sublist l
    have hsub2 : (l.filter (fun a => pts a = p)).Sublist
        ((l.mergeSort (fun a b => decide (pts b ≤ pts a))).filter
          (fun a => pts a = p)) := by
      have hff := hsl.filter (fun a => decide (pts a = p))
      rwa [List.filter_eq_self.2 (fun a ha => decide_eq_true (hall a ha))]
        at hff
    have hperm : List.Perm
        ((l.mergeSort (fun a b => decide (pts b ≤ pts a))).filter
          (fun a => pts a = p))
        (l.filter (fun a => pts a = p)) :=
      (List.mergeSort_perm l _).filter _
    have heq : ((l.mergeSort (fun a b => decide (pts b ≤ pts a))).filter
          (fun a => pts a = p))
        = l.filter (fun a => pts a = p) :=
      ((hsub2.eq_of_length hperm.length_eq.symm)).symm
    have hpre := (List.take_prefix n
      (l.mergeSort (fun a b => decide (pts b ≤ pts a)))).filter
      (fun a => decide (pts a = p))
    rwa [heq] at hpre

end SortTakeLemmas

/-- C4: both top lists have length `min n available`, are sorted descending
by accumulated points, and ties keep input order: the returned list
filtered to any fixed point value is a prefix of the input list (submission
order for tracks, first-seen artist order for artists) filtered likewise;
the artist items are indeed keyed in first-seen artist order. -/
theorem c4_top_lists (votes : List Vote) (subs : List Submission)
    (rounds : Option (List RoundRec)) (competitors : List (String × String))
    (n : Nat) :
    ((build_top_tracks votes subs rounds competitors n).length
        = min n (subs.map (mk_track (track_points_of votes)
            (round_names_of rounds) competitors)).length)
    ∧ (build_top_tracks votes subs rounds competitors n).Pairwise
        (fun a b => b.points ≤ a.points)
    ∧ (∀ p : Int,
        (build_top_tracks votes subs rounds competitors n).filter
            (fun t => t.points = p)
          <+: (subs.map (mk_track (track_points_of votes)
              (round_names_of rounds) competitors)).filter
              (fun t => t.points = p))
    ∧ ((build_top_artists votes subs n).length
        = min n (artist_points_of subs (track_points_of votes)).length)
    ∧ (build_top_artists votes subs n).Pairwise (fun a b => b.2 ≤ a.2)
    ∧ (∀ p : Int,
        (build_top_artists votes subs n).filter (fun a => a.2 = p)
          <+: (artist_points_of subs (track_points_of votes)).filter
              (fun a => a.2 = p))
    ∧ (artist_points_of subs (track_points_of votes)).map (fun e => e.1)
        = firstSeen (subs.map (fun row => row.artist)) := by
  obtain ⟨ht1, ht2, ht3⟩ := sorted_take_by_points (fun t : TrackEntry => t.points)
    (subs.map (mk_track (track_points_of votes) (round_names_of rounds)
      competitors)) n
  obtain ⟨ha1, ha2, ha3⟩ := sorted_take_by_points
    (fun a : String × Int => a.2)
    (artist_points_of subs (track_points_of votes)) n
  refine ⟨ht1, ht2, ht3, ha1, ha2, ha3, ?_⟩
  have hfe : artist_points_of subs (track_points_of votes)
      = foldUpd (fun row : Submission => row.artist) (fun _ => (0 : Int))
          (fun row acc => acc +
            (lookup? (track_points_of votes)
              (row.roundId, row.spotifyUri)).getD 0) subs := rfl
  rw [hfe, foldUpd_eq, List.map_map]
  have hcomp : ((fun e : String × Int => e.1) ∘ fun k => (k,
      foldKey (fun row : Submission => row.artist)
        (fun row acc => acc + (lookup? (track_points_of votes)
          (row.roundId, row.spotifyUri)).getD 0) k 0 subs))
      = fun k => k := funext (fun k => rfl)
  rw [hcomp, List.map_id']

/-- C9: the report orders voters descending by average points per vote with
ties broken by descending total points, the displayed rows are a
permutation of the input voters, and ranks are assigned 1, 2, 3, ... in
that order. -/
theorem c9_report_ranking (voters : List VoterStats) :
    (table_rows voters).map (fun e => e.1)
        = List.range' 1 (table_rows voters).length
    ∧ ((table_rows voters).map (fun e => e.2)).Pairwise
        (fun a b => avg_points_per_vote b < avg_points_per_vote a
          ∨ (avg_points_per_vote b = avg_points_per_vote a
              ∧ b.total_points ≤ a.total_points))
    ∧ List.Perm ((table_rows voters).map (fun e => e.2)) voters := by
  have hsnd : (table_rows voters).map (fun e => e.2) = sort_voters voters := by
    rw [table_rows, List.map_map]
    have hcomp : ((fun e : Nat × VoterStats => e.2) ∘
        fun e : Nat × VoterStats => (e.1 + 1, e.2)) = Prod.snd :=
      funext (fun e => rfl)
    rw [hcomp, List.enum_map_snd]
  refine ⟨?_, ?_, ?_⟩
  · rw [table_rows, List.map_map, List.length_map]
    have hcomp : ((fun e : Nat × VoterStats => e.1) ∘
        fun e : Nat × VoterStats => (e.1 + 1, e.2))
        = (fun i => 1 + i) ∘ Prod.fst := funext (fun e => Nat.add_comm e.1 1)
    rw [hcomp, ← List.map_map, List.enum_map_fst, ← List.range'_eq_map_range,
      List.enum_length]
  · rw [hsnd]
    have htrans : ∀ a b c : VoterStats,
        decide (keyLe (generosity_key b) (generosity_key a)) →
        decide (keyLe (generosity_key c) (generosity_key b)) →
        decide (keyLe (generosity_key c) (generosity_key a)) := by
      intro a b c hab hbc
      apply decide_eq_true
      have h1 : (generosity_key b).1 < (generosity_key a).1
          ∨ ((generosity_key b).1 = (generosity_key a).1
              ∧ (generosity_key b).2 ≤ (generosity_key a).2) :=
        of_decide_eq_true hab
      have h2 : (generosity_key c).1 < (generosity_key b).1
          ∨ ((generosity_key c).1 = (generosity_key b).1
              ∧ (generosity_key c).2 ≤ (generosity_key b).2) :=
        of_decide_eq_true hbc
      show (generosity_key c).1 < (generosity_key a).1
          ∨ ((generosity_key c).1 = (generosity_key a).1
              ∧ (generosity_key c).2 ≤ (generosity_key a).2)
      rcases h1 with h1 | ⟨h1e, h1le⟩ <;> rcases h2 with h2 | ⟨h2e, h2le⟩
      · exact Or.inl (lt_trans h2 h1)
      · exact Or.inl (h2e ▸ h1)
      · exact Or.inl (h1e ▸ h2)
      · exact Or.inr ⟨h2e.trans h1e, le_trans h2le h1le⟩
    have htotal : ∀ a b : VoterStats,
        decide (keyLe (generosity_key b) (generosity_key a)) ||
        decide (keyLe (generosity_key a) (generosity_key b)) := by
      intro a b
      rcases lt_trichotomy (generosity_key b).1 (generosity_key a).1
        with h | h | h
      · have hx : decide (keyLe (generosity_key b) (generosity_key a))
            = true := decide_eq_true (show keyLe _ _ from Or.inl h)
        rw [hx]
        rfl
      · rcases le_total (generosity_key b).2 (generosity_key a).2 with h2 | h2
        · have hx : decide (keyLe (generosity_key b) (generosity_key a))
              = true := decide_eq_true (show keyLe _ _ from Or.inr ⟨h, h2⟩)
          rw [hx]
          rfl
        · have hx : decide (keyLe (generosity_key a) (generosity_key b))
              = true :=
            decide_eq_true (show keyLe _ _ from Or.inr ⟨h.symm, h2⟩)
          rw [hx, Bool.or_true]
      · have hx : decide (keyLe (generosity_key a) (generosity_key b))
            = true := decide_eq_true (show keyLe _ _ from Or.inl h)
        rw [hx, Bool.or_true]
    have hs := List.sorted_mergeSort htrans htotal voters
    exact hs.imp (fun h => of_decide_eq_true h)
  · rw [hsnd]
    exact List.mergeSort_perm voters _

section MatrixShapeLemmas

theorem cell_replicate (n : Nat) (i j : Nat) :
    cell (List.replicate n (List.replicate n (0 : Int))) i j = 0 := by
  unfold cell
  simp only [List.getD_eq_getElem?_getD, List.getElem?_replicate]
  by_cases hi : i < n
  · rw [if_pos hi, Option.getD_some, List.getElem?_replicate]
    by_cases hj : j < n
    · rw [if_pos hj, Option.getD_some]
    · rw [if_neg hj]
      rfl
  · rw [if_neg hi]
    rfl

theorem matrix_step_preserves (smap : List ((String × String) × String))
    (ids : List String) (mat : List (List Int)) (v : Vote)
    (h1 : mat.length = ids.length)
    (h2 : ∀ row ∈ mat, row.length = ids.length)
    (h3 : ∀ i, cell mat i i = 0) :
    (matrix_step smap ids mat v).length = ids.length
    ∧ (∀ row ∈ matrix_step smap ids mat v, row.length = ids.length)
    ∧ (∀ i, cell (matrix_step smap ids mat v) i i = 0) := by
  by_cases hpos : v.pointsAssigned ≤ 0
  · rw [matrix_step_skip_nonpos smap ids mat v hpos]
    exact ⟨h1, h2, h3⟩
  · cases hlook : lookup? smap (v.roundId, v.spotifyUri) with
    | none =>
      rw [matrix_step_skip_orphan smap ids mat v hlook]
      exact ⟨h1, h2, h3⟩
    | some sub =>
      by_cases hself : v.voterId = sub
      · rw [matrix_step_skip_self smap ids mat v sub hlook hself]
        exact ⟨h1, h2, h3⟩
      · cases hgi : index_for ids v.voterId with
        | none =>
          rw [matrix_step_skip_unknown smap ids mat v sub hlook (Or.inl hgi)]
          exact ⟨h1, h2, h3⟩
        | some gi =>
          cases hri : index_for ids sub with
          | none =>
            rw [matrix_step_skip_unknown smap ids mat v sub hlook
              (Or.inr hri)]
            exact ⟨h1, h2, h3⟩
          | some ri =>
            rw [matrix_step_add smap ids mat v sub gi ri hpos hlook hself
              hgi hri]
            have hgilt : gi < mat.length := by
              rw [h1]
              exact index_for_lt hgi
            refine ⟨?_, ?_, ?_⟩
            · rw [List.length_set]
              exact h1
            · intro row hrow
              rcases List.mem_or_eq_of_mem_set hrow with hmem | heq2
              · exact h2 row hmem
              · subst heq2
                rw [List.length_set]
                have hg : mat.getD gi [] = mat[gi] := by
                  rw [List.getD_eq_getElem?_getD,
                    List.getElem?_eq_getElem hgilt, Option.getD_some]
                rw [hg]
                exact h2 _ (List.getElem_mem hgilt)
            · intro i
              have hne : gi ≠ ri := by
                intro hcon
                exact hself (index_for_inj (hcon ▸ hgi) hri)
              rw [cell_set_other mat gi ri _ i i
                (fun hc => hne (hc.1.symm.trans hc.2))]
              exact h3 i

theorem matrix_fold_squares (smap : List ((String × String) × String))
    (ids : List String) :
    ∀ (votes : List Vote) (mat : List (List Int)),
      mat.length = ids.length →
      (∀ row ∈ mat, row.length = ids.length) →
      (∀ i, cell mat i i = 0) →
      (votes.foldl (matrix_step smap ids) mat).length = ids.length
      ∧ (∀ row ∈ votes.foldl (matrix_step smap ids) mat,
          row.length = ids.length)
      ∧ (∀ i, cell (votes.foldl (matrix_step smap ids) mat) i i = 0)
  | [], _, h1, h2, h3 => ⟨h1, h2, h3⟩
  | v :: votes, mat, h1, h2, h3 => by
    obtain ⟨g1, g2, g3⟩ := matrix_step_preserves smap ids mat v h1 h2 h3
    exact matrix_fold_squares smap ids votes (matrix_step smap ids mat v)
      g1 g2 g3

end MatrixShapeLemmas

/-- C5: the vote matrix builder returns a pair (names, matrix) where the
matrix is square of dimension `names.length` (which equals the number of
competitors in the mapping), and every diagonal cell is 0. -/
theorem c5_matrix_shape (votes : List Vote) (subs : List Submission)
    (competitors : List (String × String))
    (_hnd : (competitors.map (fun e => e.1)).Nodup) :
    (build_vote_matrix votes subs competitors).2.length
        = (build_vote_matrix votes subs competitors).1.length
    ∧ (∀ row ∈ (build_vote_matrix votes subs competitors).2,
        row.length = (build_vote_matrix votes subs competitors).1.length)
    ∧ (build_vote_matrix votes subs competitors).1.length
        = competitors.length
    ∧ (∀ i, cell (build_vote_matrix votes subs competitors).2 i i = 0) := by
  have hfst : (build_vote_matrix votes subs competitors).1
      = (sorted_competitor_ids competitors).map
          (fun cid => (lookup? competitors cid).getD cid) := rfl
  have hsnd : (build_vote_matrix votes subs competitors).2
      = votes.foldl
          (matrix_step (submission_map subs)
            (sorted_competitor_ids competitors))
          (List.replicate (sorted_competitor_ids competitors).length
            (List.replicate (sorted_competitor_ids competitors).length
              (0 : Int))) := rfl
  obtain ⟨g1, g2, g3⟩ := matrix_fold_squares (submission_map subs)
    (sorted_competitor_ids competitors) votes
    (List.replicate (sorted_competitor_ids competitors).length
      (List.replicate (sorted_competitor_ids competitors).length (0 : Int)))
    (List.length_replicate _ _)
    (by
      intro row hrow
      rw [List.eq_of_mem_replicate hrow]
      exact List.length_replicate _ _)
    (fun i => cell_replicate _ i i)
  refine ⟨?_, ?_, ?_, ?_⟩
  · rw [hsnd, hfst, List.length_map]
    exact g1
  · intro row hrow
    rw [hsnd] at hrow
    rw [hfst, List.length_map]
    exact g2 row hrow
  · rw [hfst, List.length_map, sorted_competitor_ids,
      List.length_mergeSort, List.length_map]
  · intro i
    rw [hsnd]
    exact g3 i

/-- Witness for C5 at a concrete league of two competitors and one vote. -/
theorem c5_matrix_shape_witness :
    (build_vote_matrix [⟨"id_b", "t1", "r1", 3⟩]
        [⟨"r1", "t1", "T", "A", "id_a"⟩]
        [("id_a", "Alice"), ("id_b", "Bob")]).2.length
      = (build_vote_matrix [⟨"id_b", "t1", "r1", 3⟩]
          [⟨"r1", "t1", "T", "A", "id_a"⟩]
          [("id_a", "Alice"), ("id_b", "Bob")]).1.length
    ∧ (build_vote_matrix [⟨"id_b", "t1", "r1", 3⟩]
        [⟨"r1", "t1", "T", "A", "id_a"⟩]
        [("id_a", "Alice"), ("id_b", "Bob")]).1.length = 2
    ∧ ∀ i, cell (build_vote_matrix [⟨"id_b", "t1", "r1", 3⟩]
        [⟨"r1", "t1", "T", "A", "id_a"⟩]
        [("id_a", "Alice"), ("id_b", "Bob")]).2 i i = 0 := by
  have h := c5_matrix_shape [⟨"id_b", "t1", "r1", 3⟩]
    [⟨"r1", "t1", "T", "A", "id_a"⟩]
    [("id_a", "Alice"), ("id_b", "Bob")] (by decide)
  exact ⟨h.1, h.2.2.1.trans rfl, h.2.2.2⟩

end MusicLeagueStats
